import Mathlib

/-!
Verification of the markdown utility module (`markdownUtils`) of the repository.

Strings are modelled as `List Char`.  JavaScript string operations
(`String.prototype.replace` with a literal global pattern, `trim`, `split`,
`substring`, regular-expression character classes `\s` and `\d`) are embedded
as executable Lean functions on `List Char`.  Each definition carries a
comment pointing at the source construct it embeds.
-/

set_option autoImplicit false

/-- Strings are modelled as lists of characters. -/
abbrev Str := List Char

/-- JavaScript regular-expression class `\s` (also the character set removed by
`String.prototype.trim`): space, tab, LF, VT, FF, CR, NBSP, U+1680, the
U+2000–U+200A range, U+2028, U+2029, U+202F, U+205F, U+3000 and U+FEFF. -/
def jsWs (c : Char) : Bool :=
  let n := c.toNat
  n = 32 || n = 9 || (10 ≤ n && n ≤ 13) || n = 160 || n = 5760 ||
  (8192 ≤ n && n ≤ 8202) || n = 8232 || n = 8233 || n = 8239 || n = 8287 ||
  n = 12288 || n = 65279

/-- JavaScript regular-expression class `\d`, i.e. the ASCII digits `0`–`9`. -/
def isDigit (c : Char) : Bool :=
  48 ≤ c.toNat && c.toNat ≤ 57

/-- JavaScript `String.prototype.trim`: drop `\s` characters from both ends. -/
def jsTrim (s : Str) : Str :=
  ((s.dropWhile jsWs).reverse.dropWhile jsWs).reverse

/-- Fuel-indexed worker for `replaceAll`.  The fuel argument only serves
structural termination; it is always instantiated with the length of the
scanned string, which bounds the number of scanning steps. -/
def replaceAllF (pat repl : Str) : Nat → Str → Str
  | _, [] => []
  | 0, s => s
  | fuel + 1, c :: cs =>
    if pat ≠ [] ∧ pat <+: (c :: cs) then
      repl ++ replaceAllF pat repl fuel ((c :: cs).drop pat.length)
    else
      c :: replaceAllF pat repl fuel cs

/-- JavaScript `String.prototype.replace` with a global literal pattern `pat`:
scan left to right, replace each non-overlapping occurrence of `pat` by
`repl`, and never rescan the replacement text. -/
def replaceAll (pat repl s : Str) : Str := replaceAllF pat repl s.length s

/-- Source `escapeLinkUrl`: replace `(` by `%28`, then `)` by `%29`, then
a space by `%20`, each with a global regex replace. -/
def escapeLinkUrl (url : Str) : Str :=
  replaceAll [' '] (['%', '2', '0'])
    (replaceAll [')'] (['%', '2', '9'])
      (replaceAll ['('] (['%', '2', '8']) url))

/-- Source `unescapeLinkUrl`: replace `%28` by `(`, then `%29` by `)`, then
`%20` by a space, each with a global regex replace. -/
def unescapeLinkUrl (url : Str) : Str :=
  replaceAll ['%', '2', '0'] [' ']
    (replaceAll ['%', '2', '9'] [')']
      (replaceAll ['%', '2', '8'] ['('] url))

/-- Source `escapeTableCell`: HTML-escape `<` and `>`, replace newlines by
`<br/>`, then escape each pipe as `\|`. -/
def escapeTableCell (text : Str) : Str :=
  replaceAll ['|'] (['\\', '|'])
    (replaceAll ['\n'] (("<br/>").toList)
      (replaceAll ['>'] (("&gt;").toList)
        (replaceAll ['<'] (("&lt;").toList) text)))

/-- Source `countTableColumns`: `0` for an empty line; otherwise count the
`|` characters of the whole line, discount one when the trimmed line starts
with `|`, discount one when it ends with `|`, and add one.  The JavaScript
number arithmetic may pass through `-1`, so the result is an `Int`. -/
def countTableColumns (line : Str) : Int :=
  if line.isEmpty then 0
  else
    let trimmed := jsTrim line
    let pipes : Int := (line.countP (fun c => c == '|') : Nat)
    let pipes := if trimmed.head? = some '|' then pipes - 1 else pipes
    let pipes := if trimmed.getLast? = some '|' then pipes - 1 else pipes
    pipes + 1

/-- Source `matchingTableDivider`: false when either line is empty or the
divider contains a character outside `\s`, `-`, `:`, `|`; otherwise require
a positive divider column count that is at least the header column count. -/
def matchingTableDivider (header divider : Str) : Bool :=
  if header.isEmpty || divider.isEmpty then false
  else if divider.any (fun c => !(jsWs c || c == '-' || c == ':' || c == '|')) then false
  else
    decide (0 < countTableColumns divider) &&
    decide (countTableColumns header ≤ countTableColumns divider)

/-- Source `countTableColumns` invoked with JavaScript `null`: the guard
`if (!line) return 0` fires before any string operation, so `null` is
modelled as `Option.none`. -/
def countTableColumnsNull : Option Str → Int
  | none => 0
  | some s => countTableColumns s

/-- Source `matchingTableDivider` invoked with JavaScript `null` arguments:
the guard `if (!header || !divider) return false` fires for `null` exactly as
for the empty string. -/
def matchingTableDividerNull : Option Str → Option Str → Bool
  | some h, some d => matchingTableDivider h d
  | _, _ => false

/-- Pointwise character expansion: `cmap f` maps `f` over the characters and
concatenates the results; the escaping passes act this way. -/
def cmap (f : Char → Str) : Str → Str
  | [] => []
  | c :: cs => f c ++ cmap f cs

/-- Character encoder derived from a partial percent-digit map: a character
`c` with `m c = some d` becomes `%2` followed by `d`; every other character
stays itself. -/
def encWith (m : Char → Option Char) (c : Char) : Str :=
  match m c with
  | some d => ['%', '2', d]
  | none => [c]

/-- Percent-digit map of `escapeLinkUrl`: `(` to `8`, `)` to `9`, space to `0`. -/
def mPar (c : Char) : Option Char :=
  if c = '(' then some '8'
  else if c = ')' then some '9'
  else if c = ' ' then some '0'
  else none

/-- Percent-digit map remaining after the `%28` unescaping pass. -/
def mPar2 (c : Char) : Option Char :=
  if c = '(' then none else mPar c

/-- Percent-digit map remaining after the `%29` unescaping pass. -/
def mPar3 (c : Char) : Option Char :=
  if c = ')' then none else mPar2 c

/-- Single step of a regular expression: consume one character satisfying `p`. -/
def expectChar (p : Char → Bool) : Str → Option Str
  | c :: rest => if p c then some rest else none
  | [] => none

/-- Single step that also returns the consumed character. -/
def expectCharC (p : Char → Bool) : Str → Option (Char × Str)
  | c :: rest => if p c then some (c, rest) else none
  | [] => none

/-- Bullet character class `[*+-]` of the list regular expressions. -/
def isBullet (c : Char) : Bool :=
  c == '*' || c == '+' || c == '-'

/-- First alternative `[*+-] \[[x ]\]\s` of `listRegex`: a bullet, a space,
a checkbox, and one whitespace character.  Returns (token, rest). -/
def listAlt1 (s : Str) : Option (Str × Str) :=
  (expectCharC isBullet s).bind fun br =>
  (expectCharC (fun c => c == ' ') br.2).bind fun sr =>
  (expectCharC (fun c => c == '[') sr.2).bind fun lr =>
  (expectCharC (fun c => c == 'x' || c == ' ') lr.2).bind fun xr =>
  (expectCharC (fun c => c == ']') xr.2).bind fun rr =>
  (expectCharC jsWs rr.2).bind fun wr =>
  some ([br.1, sr.1, lr.1, xr.1, rr.1, wr.1], wr.2)

/-- Second alternative `[*+-]\s` of `listRegex`.  Returns (token, rest). -/
def listAlt2 (s : Str) : Option (Str × Str) :=
  (expectCharC isBullet s).bind fun br =>
  (expectCharC jsWs br.2).bind fun wr =>
  some ([br.1, wr.1], wr.2)

/-- Third alternative `(\d+)([.)]\s)` of `listRegex`: a maximal nonempty run
of digits (group 3), then a dot or closing parenthesis and one whitespace
character (group 4).  The greedy `\d+` needs no backtracking because `[.)]`
matches no digit.  Returns (token, group 3, group 4, rest). -/
def listAlt3 (s : Str) : Option (Str × Str × Str × Str) :=
  let ds := s.takeWhile isDigit
  if ds.isEmpty then none
  else
    (expectCharC (fun c => c == '.' || c == ')') (s.dropWhile isDigit)).bind fun pr =>
    (expectCharC jsWs pr.2).bind fun wr =>
    some (ds ++ [pr.1, wr.1], ds, [pr.1, wr.1], wr.2)

/-- Capture groups of `listRegex`, as described by the source comment:
leading whitespace, list token, ordinal digits (ordered alternative only),
ordinal tail (ordered alternative only), whitespace following the token. -/
structure ListMatch where
  g1 : Str
  g2 : Str
  g3 : Option Str
  g4 : Option Str
  g5 : Str

/-- Matching of `listRegex = /^(\s*)([*+-] \[[x ]\]\s|[*+-]\s|(\d+)([.)]\s))(\s*)/`
against a line.  The leading greedy `\s*` never needs backtracking because
every alternative starts with a non-whitespace character; the alternatives
are tried in source order, and nothing after group 2 can fail, so the first
locally matching alternative wins. -/
def matchListRegex (line : Str) : Option ListMatch :=
  let g1 := line.takeWhile jsWs
  let s := line.dropWhile jsWs
  match listAlt1 s with
  | some tr => some ⟨g1, tr.1, none, none, tr.2.takeWhile jsWs⟩
  | none =>
    match listAlt2 s with
    | some tr => some ⟨g1, tr.1, none, none, tr.2.takeWhile jsWs⟩
    | none =>
      match listAlt3 s with
      | some tr => some ⟨g1, tr.1, some tr.2.1, some tr.2.2.1, tr.2.2.2.takeWhile jsWs⟩
      | none => none

/-- JavaScript numbers as produced by `Number(...)` on a capture group:
NaN for `Number(undefined)`, or a natural number (the ordinals in scope are
strings of decimal digits). -/
inductive JsNum where
  | nan : JsNum
  | num : Nat → JsNum
deriving DecidableEq

/-- Decimal value of a digit string, as computed by JavaScript `Number` on a
string of ASCII digits. -/
def parseDigits (ds : Str) : Nat :=
  ds.foldl (fun a c => 10 * a + (c.toNat - 48)) 0

/-- JavaScript `Number` applied to an optional capture group:
`Number(undefined)` is NaN; a captured digit string parses decimally. -/
def jsNumberOfGroup : Option Str → JsNum
  | none => JsNum.nan
  | some ds => JsNum.num (parseDigits ds)

/-- Source `olLineNumber`: `match ? Number(match[3]) : 0`. -/
def olLineNumber (line : Str) : JsNum :=
  match matchListRegex line with
  | some m => jsNumberOfGroup m.g3
  | none => JsNum.num 0

/-- Source `isListItem`: `listRegex.test(line)`. -/
def isListItem (line : Str) : Bool :=
  (matchListRegex line).isSome

/-- First alternative `[*+-] \[[x ]\]` of `emptyListRegex` (unlike
`listRegex`, no whitespace inside the token). -/
def emptyAlt1 (s : Str) : Option Str :=
  (expectChar isBullet s).bind fun s1 =>
  (expectChar (fun c => c == ' ') s1).bind fun s2 =>
  (expectChar (fun c => c == '[') s2).bind fun s3 =>
  (expectChar (fun c => c == 'x' || c == ' ') s3).bind fun s4 =>
  expectChar (fun c => c == ']') s4

/-- Second alternative `[*+-]` of `emptyListRegex`. -/
def emptyAlt2 (s : Str) : Option Str :=
  expectChar isBullet s

/-- Third alternative `(\d+)[.)]` of `emptyListRegex`. -/
def emptyAlt3 (s : Str) : Option Str :=
  if (s.takeWhile isDigit).isEmpty then none
  else expectChar (fun c => c == '.' || c == ')') (s.dropWhile isDigit)

/-- Trailing `(\s+)$` of `emptyListRegex`: at least one character, all of
them whitespace, running to the very end of the line. -/
def tailAllWs (s : Str) : Bool :=
  !s.isEmpty && s.all jsWs

/-- Source `isEmptyListItem`: `emptyListRegex.test(line)` with
`emptyListRegex = /^(\s*)([*+-] \[[x ]\]|[*+-]|(\d+)[.)])(\s+)$/`.  The
regular expression matches iff some alternative matches after the maximal
leading whitespace and leaves a nonempty all-whitespace remainder (the
engine backtracks across the alternatives; the leading `\s*` cannot
usefully backtrack because every alternative starts with a non-whitespace
character). -/
def isEmptyListItem (line : Str) : Bool :=
  let s := line.dropWhile jsWs
  (match emptyAlt1 s with | some r => tailAllWs r | none => false) ||
  (match emptyAlt2 s with | some r => tailAllWs r | none => false) ||
  (match emptyAlt3 s with | some r => tailAllWs r | none => false)

/-- Characters matched by the JavaScript regex `.`: anything but a line
terminator. -/
def jsDot (c : Char) : Bool :=
  !(c == '\n' || c == '\r' || c.toNat == 8232 || c.toNat == 8233)

/-- Tail of the lazy `.+?\)` step: the shortest (possibly empty) run of
further `.`-characters followed by a literal `)`. -/
def scanToParen : Str → Option (Str × Str)
  | [] => none
  | c :: rest =>
    if c == ')' then some ([], rest)
    else if jsDot c then (scanToParen rest).map (fun pr => (c :: pr.1, pr.2))
    else none

/-- Lazy `.+?\)` step of the link regular expressions: one `.`-character,
then the shortest run of `.`-characters followed by `)`.  Returns the
captured run and the rest after the closing parenthesis. -/
def lazyUntilParen : Str → Option (Str × Str)
  | [] => none
  | c :: rest =>
    if jsDot c then (scanToParen rest).map (fun pr => (c :: pr.1, pr.2))
    else none

/-- Body `\[([^\]]+?)\]\(.+?\)` of `mdLinkRegex` from the `[` on: a nonempty
lazy label of non-`]` characters (equivalently, everything up to the first
`]`), then `](`, then the lazy URL part.  Returns (label, rest). -/
def mdLinkBody (s : Str) : Option (Str × Str) :=
  match s with
  | '[' :: rest =>
    let label := rest.takeWhile (fun c => !(c == ']'))
    if label.isEmpty then none
    else
      match rest.dropWhile (fun c => !(c == ']')) with
      | ']' :: '(' :: s2 => (lazyUntilParen s2).map (fun pr => (label, pr.2))
      | _ => none
  | _ => none

/-- Match of `mdLinkRegex = /!?\[([^\]]+?)\]\(.+?\)/g` at the current
position; when the optional `!` is taken and the body fails, the engine
cannot instead match `\[` at the `!`, so no backtracking arises.  Returns
the replacement text `$1` and the rest after the match. -/
def mdLinkAt (s : Str) : Option (Str × Str) :=
  match s with
  | '!' :: rest => mdLinkBody rest
  | _ => mdLinkBody s

/-- Body `\[\]\((.+?)\)` of `emptyMdLinkRegex` from the `[` on. -/
def emptyMdLinkBody (s : Str) : Option (Str × Str) :=
  match s with
  | '[' :: ']' :: '(' :: s2 => lazyUntilParen s2
  | _ => none

/-- Match of `emptyMdLinkRegex = /!?\[\]\((.+?)\)/g` at the current
position; the replacement text is the captured URL `$1`. -/
def emptyMdLinkAt (s : Str) : Option (Str × Str) :=
  match s with
  | '!' :: rest => emptyMdLinkBody rest
  | _ => emptyMdLinkBody s

/-- Global regex replace: at each position try the matcher; on a match emit
its replacement text and continue after it, otherwise keep one character and
move on.  The fuel is instantiated with the string length, which bounds the
scan because a successful match consumes at least one character. -/
def replaceScan (m : Str → Option (Str × Str)) : Nat → Str → Str
  | _, [] => []
  | 0, s => s
  | fuel + 1, c :: rest =>
    match m (c :: rest) with
    | some gr => gr.1 ++ replaceScan m fuel gr.2
    | none => c :: replaceScan m fuel rest

/-- Character class `[# \n\t*`-]` of `filterRegex` (the code 96 is the
backtick). -/
def filterChar (c : Char) : Bool :=
  c == '#' || c == ' ' || c == '\n' || c == '\t' || c == '*' || c.toNat == 96 || c == '-'

/-- Source `titleFromBody`: empty result for a falsy body; otherwise trim
the body, take its first line, trim it, strip the leading `filterRegex` run,
collapse labelled (image) links to their label, collapse empty-label links
to their URL, and truncate to 80 characters. -/
def titleFromBody (body : Str) : Str :=
  if body.isEmpty then []
  else
    let title := jsTrim ((jsTrim body).takeWhile (fun c => !(c == '\n')))
    let t1 := title.dropWhile filterChar
    let t2 := replaceScan mdLinkAt t1.length t1
    let t3 := replaceScan emptyMdLinkAt t2.length t2
    t3.take 80

/-- Source `titleFromBody` invoked with JavaScript `null`: the guard
`if (!body) return ''` fires before any string operation, so `null` is
modelled as `Option.none`. -/
def titleFromBodyNull : Option Str → Str
  | none => []
  | some s => titleFromBody s

/-- Markdown-it token (output of the external tokenizer): a type tag, an
attribute list of `[name, value]` arrays, a raw content string, and the
children (the empty list standing for absent children). -/
inductive Token where
  | mk (ttype : Str) (attrs : List (List Str)) (content : Str) (children : List Token)

/-- Options of `extractFileUrls` after the merge with the defaults. -/
structure ExtractFileUrlsOptions where
  includeImages : Bool
  includeAnchors : Bool
  detailedResults : Bool
  html : Bool

/-- Source enum `ExtractFileUrlsResultType`. -/
inductive ExtractFileUrlsResultType where
  | anchor
  | image
deriving DecidableEq

/-- Source interface `ExtractFileUrlsResult`. -/
structure ExtractFileUrlsResult where
  url : Str
  type : ExtractFileUrlsResultType

/-- Attribute scan of an `image`/`link_open` token: one result per attribute
array whose name is `src` or `href` and that has at least two entries with a
truthy (nonempty) value. -/
def attrUrls (rt : ExtractFileUrlsResultType) : List (List Str) → List ExtractFileUrlsResult
  | [] => []
  | a :: rest =>
    (match a with
     | n :: v :: _ =>
       if (n = ("src").toList ∨ n = ("href").toList) ∧ v ≠ [] then [⟨v, rt⟩] else []
     | _ => []) ++ attrUrls rt rest

/-- Raw HTML scan of an `html_block`/`html_inline` token: the source runs
`imageRegex` and then `anchorRegex` (imported from `htmlUtils`, outside this
module) over the literal content, recording the second capture group of each
match; the two regex scans are abstracted as the functions `imgScan` and
`anchScan`, and the inner `continue` statements become the two option
guards. -/
def htmlUrls (imgScan anchScan : Str → List Str) (includeImages includeAnchors : Bool)
    (content : Str) : List ExtractFileUrlsResult :=
  (if includeImages then (imgScan content).map (fun u => ⟨u, .image⟩) else []) ++
  (if includeAnchors then (anchScan content).map (fun u => ⟨u, .anchor⟩) else [])

mutual

/-- Loop body of the source recursion `searchUrls` for one token.  A skipped
`image`/`link_open` token hits a `continue`, which also skips the recursion
into its children; otherwise the token's own URLs come first and the
children (when nonempty) are searched afterwards. -/
def searchUrlsToken (imgScan anchScan : Str → List Str)
    (includeImages includeAnchors : Bool) : Token → List ExtractFileUrlsResult
  | .mk ttype attrs content children =>
    if ttype = ("image").toList ∨ ttype = ("link_open").toList then
      if (ttype = ("image").toList ∧ includeImages = false) ∨
          (ttype = ("link_open").toList ∧ includeAnchors = false) then
        []
      else
        attrUrls (if ttype = ("image").toList then .image else .anchor) attrs ++
        (if children.isEmpty then []
         else searchUrlsList imgScan anchScan includeImages includeAnchors children)
    else if ttype = ("html_block").toList ∨ ttype = ("html_inline").toList then
      htmlUrls imgScan anchScan includeImages includeAnchors content ++
      (if children.isEmpty then []
       else searchUrlsList imgScan anchScan includeImages includeAnchors children)
    else
      (if children.isEmpty then []
       else searchUrlsList imgScan anchScan includeImages includeAnchors children)

/-- Source recursion `searchUrls` over a token list, in document order. -/
def searchUrlsList (imgScan anchScan : Str → List Str)
    (includeImages includeAnchors : Bool) : List Token → List ExtractFileUrlsResult
  | [] => []
  | t :: ts =>
    searchUrlsToken imgScan anchScan includeImages includeAnchors t ++
    searchUrlsList imgScan anchScan includeImages includeAnchors ts

end

/-- Union return type of `extractFileUrls`: URL strings when
`detailedResults` is false, full records when it is true. -/
inductive ExtractOut where
  | urls (l : List Str)
  | detailed (l : List ExtractFileUrlsResult)

/-- Detailed record list of an `ExtractOut`. -/
def ExtractOut.getDetailed : ExtractOut → List ExtractFileUrlsResult
  | .detailed l => l
  | .urls _ => []

/-- Source `extractFileUrls` after tokenization: the markdown-it parse of
the input (an external collaborator, configured by the `html` option and the
injected link-validation hook) is passed in as the token list, and the two
`htmlUtils` regular expressions as scan functions.  The collected output is
returned as records or mapped to its URL strings according to
`detailedResults`. -/
def extractFileUrls (imgScan anchScan : Str → List Str)
    (options : ExtractFileUrlsOptions) (tokens : List Token) : ExtractOut :=
  let output := searchUrlsList imgScan anchScan options.includeImages options.includeAnchors tokens
  if options.detailedResults then ExtractOut.detailed output
  else ExtractOut.urls (output.map (fun r => r.url))

/-- Source enum `MarkdownTableJustify`. -/
inductive MarkdownTableJustify where
  | left
  | center
  | right
deriving DecidableEq

/-- Source interface `MarkdownTableHeader`; `filter` receives the possibly
missing (`undefined`) row value and may itself return a falsy value. -/
structure MarkdownTableHeader where
  name : Str
  label : Str
  filter : Option (Option Str → Option Str)
  disableEscape : Bool
  justify : Option MarkdownTableJustify

/-- Rows are JavaScript objects read only through `row[h.name]`: an
association list from key to value, a missing key reading as `none`. -/
abbrev MarkdownTableRow := List (Str × Str)

/-- Modelled from the spec: the external `string-padding` module (absent
from the sources), invoked as `stringPadding(text, 5, ' ', RIGHT)` — pad on
the right to the minimum width, leaving longer strings untouched. -/
def stringPadding (s : Str) (len : Nat) (c : Char) : Str :=
  s ++ List.replicate (len - s.length) c

/-- JavaScript `Array.prototype.join` with the given separator. -/
def joinSep (sep : Str) : List Str → Str
  | [] => []
  | [x] => x
  | x :: xs => x ++ sep ++ joinSep sep xs

/-- Template `| ${cells.join(' | ')} |` used for every table line. -/
def wrapRow (cells : List Str) : Str :=
  ("| ").toList ++ joinSep ((" | ").toList) cells ++ (" |").toList

/-- Divider cell for one header: `-----`, `:---:` or `----:` according to
`justify`, which defaults to `Left` when unset. -/
def dividerCellOf (h : MarkdownTableHeader) : Str :=
  let justify := match h.justify with
    | some j => j
    | none => MarkdownTableJustify.left
  if justify = MarkdownTableJustify.left then ("-----").toList
  else if justify = MarkdownTableJustify.center then (":---:").toList
  else ("----:").toList

/-- JavaScript `x || ''` coercion of a possibly undefined value. -/
def orEmpty : Option Str → Str
  | none => []
  | some s => s

/-- Cell text of one header/row pair before padding: read `row[h.name]`,
apply `filter` when present, coerce a falsy result to the empty string, and
escape unless `disableEscape` is set. -/
def cellText (h : MarkdownTableHeader) (row : MarkdownTableRow) : Str :=
  let value := orEmpty (match h.filter with
    | some f => f (List.lookup h.name row)
    | none => List.lookup h.name row)
  if h.disableEscape then value else escapeTableCell value

/-- Source `createMarkdownTable`: one loop pushes the padded header cell and
the divider cell per header; the two joined lines are followed by one joined
line per row with one padded cell per header; the lines are joined by
newlines. -/
def createMarkdownTable (headers : List MarkdownTableHeader) (rows : List MarkdownTableRow) :
    Str :=
  let hd := headers.foldl
    (fun acc h => (acc.1 ++ [stringPadding h.label 5 ' '], acc.2 ++ [dividerCellOf h]))
    ([], [])
  let output := [wrapRow hd.1, wrapRow hd.2]
  let output := rows.foldl
    (fun acc row =>
      acc ++
        [wrapRow (headers.foldl
          (fun acc2 h => acc2 ++ [stringPadding (cellText h row) 5 ' ']) [])])
    output
  joinSep ['\n'] output

/-- Bullet tokens of the list grammar, as they appear in `emptyListRegex`:
a bare bullet `*`, `+` or `-`; a bullet, space and checkbox `[x]` or `[ ]`;
or a nonempty digit run followed by `.` or `)`. -/
inductive IsBulletToken : Str → Prop where
  | bullet (b : Char) :
      b = '*' ∨ b = '+' ∨ b = '-' → IsBulletToken [b]
  | checkbox (b x : Char) :
      b = '*' ∨ b = '+' ∨ b = '-' → x = 'x' ∨ x = ' ' →
      IsBulletToken [b, ' ', '[', x, ']']
  | ordered (ds : Str) (p : Char) :
      ds ≠ [] → (∀ c ∈ ds, isDigit c = true) → p = '.' ∨ p = ')' →
      IsBulletToken (ds ++ [p])

/-! ### General lemmas about the embedded string operations -/

theorem replaceAllF_cons (pat repl : Str) (c : Char) (cs : Str) (fuel : Nat) :
    replaceAllF pat repl (fuel + 1) (c :: cs) =
      if pat ≠ [] ∧ pat <+: (c :: cs) then
        repl ++ replaceAllF pat repl fuel ((c :: cs).drop pat.length)
      else
        c :: replaceAllF pat repl fuel cs := rfl

theorem replaceAllF_fuel (pat repl : Str) (f : Nat) :
    ∀ s : Str, s.length ≤ f → replaceAllF pat repl f s = replaceAllF pat repl s.length s := by
  induction f using Nat.strong_induction_on with
  | _ f ih =>
    intro s hs
    cases s with
    | nil => cases f <;> rfl
    | cons c cs =>
      cases f with
      | zero => simp at hs
      | succ f' =>
        rw [List.length_cons, replaceAllF_cons, replaceAllF_cons]
        simp only [List.length_cons] at hs
        by_cases h : pat ≠ [] ∧ pat <+: (c :: cs)
        · rw [if_pos h, if_pos h]
          have hp := List.length_pos.mpr h.1
          have hd : ((c :: cs).drop pat.length).length ≤ cs.length := by
            simp only [List.length_drop, List.length_cons]; omega
          rw [ih f' (by omega) _ (by omega), ih cs.length (by omega) _ hd]
        · rw [if_neg h, if_neg h]
          rw [ih f' (by omega) cs (by omega)]

theorem replaceAll_nil (pat repl : Str) : replaceAll pat repl [] = [] := rfl

theorem replaceAll_cons_pos (pat repl : Str) (c : Char) (cs : Str)
    (h1 : pat ≠ []) (h2 : pat <+: (c :: cs)) :
    replaceAll pat repl (c :: cs) =
      repl ++ replaceAll pat repl ((c :: cs).drop pat.length) := by
  unfold replaceAll
  rw [List.length_cons, replaceAllF_cons, if_pos ⟨h1, h2⟩]
  have hp := List.length_pos.mpr h1
  have hd : ((c :: cs).drop pat.length).length ≤ cs.length := by
    simp only [List.length_drop, List.length_cons]; omega
  rw [replaceAllF_fuel pat repl cs.length _ hd]

theorem replaceAll_cons_neg (pat repl : Str) (c : Char) (cs : Str)
    (h : ¬ (pat ≠ [] ∧ pat <+: (c :: cs))) :
    replaceAll pat repl (c :: cs) = c :: replaceAll pat repl cs := by
  unfold replaceAll
  rw [List.length_cons, replaceAllF_cons, if_neg h]

theorem foldl_push {α β : Type} (f : α → β) (l : List α) (init : List β) :
    l.foldl (fun acc x => acc ++ [f x]) init = init ++ l.map f := by
  induction l generalizing init with
  | nil => simp
  | cons x xs ih => simp [ih]

theorem foldl_push_pair {α β γ : Type} (f : α → β) (g : α → γ) (l : List α)
    (i1 : List β) (i2 : List γ) :
    l.foldl (fun acc h => (acc.1 ++ [f h], acc.2 ++ [g h])) (i1, i2) =
      (i1 ++ l.map f, i2 ++ l.map g) := by
  induction l generalizing i1 i2 with
  | nil => simp
  | cons x xs ih => simp [ih]

/-! ### Claim theorems -/

/-- Claim C6: `countTableColumns` returns 0 on the empty line, and otherwise
the number of `|` characters in the line, minus one when the trimmed line
starts with `|`, minus one when the trimmed line ends with `|`, plus one; in
particular it returns 2 on `"| a | b |"`. -/
theorem countTableColumns_spec (line : Str) :
    countTableColumns line =
      (if line = [] then 0
       else ((line.countP (fun c => c == '|') : Nat) : Int)
            - (if (jsTrim line).head? = some '|' then 1 else 0)
            - (if (jsTrim line).getLast? = some '|' then 1 else 0)
            + 1) ∧
    countTableColumns (("| a | b |").toList) = 2 := by
  refine ⟨?_, by decide⟩
  simp only [countTableColumns, List.isEmpty_iff]
  split_ifs <;> omega

/-- Claim C8: `escapeTableCell` is not idempotent on input containing a
pipe: on the two-character string of a backslash followed by a pipe, the
second application escapes the pipe of the escaped pipe again. -/
theorem escapeTableCell_not_idempotent :
    escapeTableCell (escapeTableCell (['\\', '|'])) ≠ escapeTableCell (['\\', '|']) := by
  decide

/-- Claim C9: on empty or null input the functions return neutral results
instead of raising: `titleFromBody` returns the empty string,
`countTableColumns` returns 0, and `matchingTableDivider` returns false
whenever either argument is empty or null. -/
theorem nullOrEmpty_neutral :
    titleFromBodyNull none = [] ∧ titleFromBody [] = [] ∧
    countTableColumnsNull none = 0 ∧ countTableColumns [] = 0 ∧
    (∀ d, matchingTableDividerNull none d = false) ∧
    (∀ h, matchingTableDividerNull h none = false) ∧
    (∀ d, matchingTableDivider [] d = false) ∧
    (∀ h, matchingTableDivider h [] = false) := by
  refine ⟨rfl, rfl, rfl, rfl, ?_, ?_, ?_, ?_⟩
  · intro d; cases d <;> rfl
  · intro h; cases h <;> rfl
  · intro d; rfl
  · intro h; simp [matchingTableDivider]

/-- Claim C5: `matchingTableDivider` returns false when either line is
empty or the divider contains a character other than whitespace, `-`, `:`,
`|`; otherwise it returns true exactly when the divider column count is
positive and at least the header column count. -/
theorem matchingTableDivider_spec (header divider : Str) :
    matchingTableDivider header divider = true ↔
      header ≠ [] ∧ divider ≠ [] ∧
      (∀ c ∈ divider, jsWs c = true ∨ c = '-' ∨ c = ':' ∨ c = '|') ∧
      0 < countTableColumns divider ∧
      countTableColumns header ≤ countTableColumns divider := by
  unfold matchingTableDivider
  by_cases h1 : header.isEmpty || divider.isEmpty
  · rw [if_pos h1]
    simp only [Bool.or_eq_true, List.isEmpty_iff] at h1
    simp only [Bool.false_eq_true, false_iff, not_and]
    intro hh hd
    exfalso
    rcases h1 with h | h
    · exact hh h
    · exact hd h
  · rw [if_neg h1]
    simp only [Bool.or_eq_true, List.isEmpty_iff] at h1
    push_neg at h1
    by_cases h2 : divider.any (fun c => !(jsWs c || c == '-' || c == ':' || c == '|'))
    · rw [if_pos h2]
      simp only [Bool.false_eq_true, false_iff, not_and]
      intro _ _ hall
      exfalso
      simp only [List.any_eq_true, Bool.not_eq_true'] at h2
      obtain ⟨c, hc, hcf⟩ := h2
      rcases hall c hc with h | h | h | h <;> simp [h] at hcf
    · rw [if_neg h2]
      simp only [Bool.and_eq_true, decide_eq_true_eq]
      constructor
      · rintro ⟨ha, hb⟩
        refine ⟨h1.1, h1.2, ?_, ha, hb⟩
        intro c hc
        by_contra hcon
        push_neg at hcon
        apply h2
        simp only [List.any_eq_true, Bool.not_eq_true']
        refine ⟨c, hc, ?_⟩
        simp only [Bool.or_eq_false_iff, beq_eq_false_iff_ne]
        exact ⟨⟨⟨Bool.not_eq_true _ ▸ hcon.1, hcon.2.1⟩, hcon.2.2.1⟩, hcon.2.2.2⟩
      · rintro ⟨-, -, -, ha, hb⟩
        exact ⟨ha, hb⟩

/-- Witness for claim C5 at the documented example divider. -/
theorem matchingTableDivider_spec_witness :
    matchingTableDivider (("| a | b |").toList) (("| - | - |").toList) = true :=
  (matchingTableDivider_spec (("| a | b |").toList) (("| - | - |").toList)).mpr
    ⟨by decide, by decide, by decide, by decide, by decide⟩

/-- Claim C4: `createMarkdownTable` returns `2 + rows.length` newline-joined
lines: a header row of labels padded right to minimum width 5, a divider row
with one justify-chosen cell per header (Left `-----`, Center `:---:`,
Right `----:`, default Left), and one data row per input row with exactly
one processed, padded cell per header; every line joins its cells with
` | ` and wraps them in `| … |`. -/
theorem createMarkdownTable_spec (headers : List MarkdownTableHeader)
    (rows : List MarkdownTableRow) :
    createMarkdownTable headers rows =
      joinSep ['\n']
        (wrapRow (headers.map (fun h => stringPadding h.label 5 ' ')) ::
         wrapRow (headers.map dividerCellOf) ::
         rows.map (fun row =>
           wrapRow (headers.map (fun h => stringPadding (cellText h row) 5 ' ')))) ∧
    (wrapRow (headers.map (fun h => stringPadding h.label 5 ' ')) ::
     wrapRow (headers.map dividerCellOf) ::
     rows.map (fun row =>
       wrapRow (headers.map (fun h => stringPadding (cellText h row) 5 ' ')))).length
      = 2 + rows.length ∧
    (∀ row : MarkdownTableRow,
      (headers.map (fun h => stringPadding (cellText h row) 5 ' ')).length
        = headers.length) ∧
    (∀ h : MarkdownTableHeader,
      dividerCellOf h =
        match h.justify with
        | none => ("-----").toList
        | some MarkdownTableJustify.left => ("-----").toList
        | some MarkdownTableJustify.center => (":---:").toList
        | some MarkdownTableJustify.right => ("----:").toList) ∧
    createMarkdownTable
        [⟨("a").toList, ("A").toList, none, false, none⟩]
        [[(("a").toList, ("x").toList)]]
      = ("| A     |\n| ----- |\n| x     |").toList := by
  refine ⟨?_, by simp; omega, ?_, ?_, by decide⟩
  · simp only [createMarkdownTable, foldl_push_pair, foldl_push, List.nil_append]
    rfl
  · intro row
    simp
  · intro h
    cases hj : h.justify with
    | none => simp [dividerCellOf, hj]
    | some j => cases j <;> simp [dividerCellOf, hj]

/-- Claim C7: with `detailedResults` false (other options equal),
`extractFileUrls` returns exactly the `url` fields of the records returned
with `detailedResults` true, preserving document order and duplicates. -/
theorem extractFileUrls_detailed_map (imgScan anchScan : Str → List Str)
    (ii ia hh : Bool) (tokens : List Token) :
    extractFileUrls imgScan anchScan ⟨ii, ia, false, hh⟩ tokens =
      ExtractOut.urls
        ((ExtractOut.getDetailed
            (extractFileUrls imgScan anchScan ⟨ii, ia, true, hh⟩ tokens)).map
          (fun r => r.url)) := rfl

theorem takeWhile_all_append (p : Char → Bool) (xs ys : Str)
    (hxs : ∀ c ∈ xs, p c = true)
    (hys : ∀ c, ys.head? = some c → p c = false) :
    (xs ++ ys).takeWhile p = xs ∧ (xs ++ ys).dropWhile p = ys := by
  revert hxs
  induction xs with
  | nil =>
    intro _
    simp only [List.nil_append]
    cases ys with
    | nil => simp
    | cons y ys' =>
      have hy := hys y rfl
      simp [List.takeWhile_cons, List.dropWhile_cons, hy]
  | cons x xs' ih =>
    intro hxs
    have hx := hxs x (by simp)
    have ih' := ih (fun c hc => hxs c (by simp [hc]))
    simp [List.takeWhile_cons, List.dropWhile_cons, hx, ih'.1, ih'.2]

theorem isDigit_not_jsWs {c : Char} (h : isDigit c = true) : jsWs c = false := by
  simp only [isDigit, Bool.and_eq_true, decide_eq_true_eq] at h
  rw [Bool.eq_false_iff]
  intro hw
  simp only [jsWs, Bool.or_eq_true, Bool.and_eq_true, decide_eq_true_eq] at hw
  omega

theorem isDigit_not_bullet {c : Char} (h : isDigit c = true) : isBullet c = false := by
  rw [Bool.eq_false_iff]
  intro hb
  simp only [isBullet, Bool.or_eq_true, beq_iff_eq] at hb
  rcases hb with (rfl | rfl) | rfl <;> exact absurd h (by decide)

theorem tailAllWs_of (ws : Str) (hne : ws ≠ []) (hws : ∀ c ∈ ws, jsWs c = true) :
    tailAllWs ws = true := by
  cases ws with
  | nil => exact absurd rfl hne
  | cons w ws' =>
    simp only [tailAllWs, List.isEmpty_cons, Bool.not_false, Bool.true_and,
      List.all_eq_true]
    exact fun c hc => hws c hc

/-- Claim C10: `isEmptyListItem` requires at least one whitespace character
after the bullet token: a line that is exactly a bullet token (such as `-`,
`*` or `1.`) is rejected, while the same token followed by one or more
whitespace characters and nothing else is accepted. -/
theorem isEmptyListItem_spec (t : Str) (h : IsBulletToken t) :
    isEmptyListItem t = false ∧
    ∀ ws, ws ≠ [] → (∀ c ∈ ws, jsWs c = true) → isEmptyListItem (t ++ ws) = true := by
  have tailNil : tailAllWs [] = false := by decide
  cases h with
  | bullet b hb =>
    have hbB : isBullet b = true := by rcases hb with rfl | rfl | rfl <;> decide
    have hbW : jsWs b = false := by rcases hb with rfl | rfl | rfl <;> decide
    have hbD : isDigit b = false := by rcases hb with rfl | rfl | rfl <;> decide
    constructor
    · simp [isEmptyListItem, emptyAlt1, emptyAlt2, emptyAlt3, expectChar, Option.bind,
        List.dropWhile_cons, List.takeWhile_cons, hbW, hbB, hbD, tailNil]
    · intro ws hne hws
      have hT := tailAllWs_of ws hne hws
      simp [isEmptyListItem, emptyAlt2, expectChar, Option.bind,
        List.dropWhile_cons, hbW, hbB, hT]
  | checkbox b x hb hx =>
    have hbB : isBullet b = true := by rcases hb with rfl | rfl | rfl <;> decide
    have hbW : jsWs b = false := by rcases hb with rfl | rfl | rfl <;> decide
    have hbD : isDigit b = false := by rcases hb with rfl | rfl | rfl <;> decide
    have hxB : (x == 'x' || x == ' ') = true := by rcases hx with rfl | rfl <;> decide
    have hLB : jsWs ('[') = false := by decide
    constructor
    · simp [isEmptyListItem, emptyAlt1, emptyAlt2, emptyAlt3, expectChar, Option.bind,
        List.dropWhile_cons, List.takeWhile_cons, List.all_cons, tailAllWs,
        hbW, hbB, hbD, hxB, hx, hLB, tailNil]
    · intro ws hne hws
      have hT := tailAllWs_of ws hne hws
      simp [isEmptyListItem, emptyAlt1, expectChar, Option.bind,
        List.dropWhile_cons, hbW, hbB, hxB, hx, hT]
  | ordered ds p hdne hds hp =>
    obtain ⟨d0, ds', rfl⟩ : ∃ d0 ds', ds = d0 :: ds' := by
      cases ds with
      | nil => exact absurd rfl hdne
      | cons d0 ds' => exact ⟨d0, ds', rfl⟩
    have hd0 := hds d0 (by simp)
    have hd0W : jsWs d0 = false := isDigit_not_jsWs hd0
    have hd0B : isBullet d0 = false := isDigit_not_bullet hd0
    have hpD : isDigit p = false := by rcases hp with rfl | rfl <;> decide
    have hpP : (p == '.' || p == ')') = true := by rcases hp with rfl | rfl <;> decide
    constructor
    · have hsplit := takeWhile_all_append isDigit (d0 :: ds') [p] hds
        (fun c hc => by
          simp only [List.head?_cons, Option.some.injEq] at hc
          exact hc ▸ hpD)
      simp only [List.cons_append, List.nil_append] at hsplit ⊢
      simp [isEmptyListItem, emptyAlt1, emptyAlt2, emptyAlt3, expectChar, Option.bind,
        List.dropWhile_cons, hd0W, hd0B, hd0, hsplit.1, hsplit.2, hpP, hp, tailNil]
    · intro ws hne hws
      have hT := tailAllWs_of ws hne hws
      have hsplit := takeWhile_all_append isDigit (d0 :: ds') (p :: ws) hds
        (fun c hc => by
          simp only [List.head?_cons, Option.some.injEq] at hc
          exact hc ▸ hpD)
      simp only [List.cons_append, List.nil_append, List.append_assoc] at hsplit ⊢
      simp [isEmptyListItem, emptyAlt1, emptyAlt2, emptyAlt3, expectChar, Option.bind,
        List.dropWhile_cons, hd0W, hd0B, hd0, hsplit.1, hsplit.2, hpP, hp, hT]

/-- Witness for claim C10 at the dash token. -/
theorem isEmptyListItem_spec_witness :
    isEmptyListItem (['-']) = false ∧ isEmptyListItem (['-'] ++ [' ']) = true :=
  ⟨(isEmptyListItem_spec ['-'] (IsBulletToken.bullet '-' (by decide))).1,
   (isEmptyListItem_spec ['-'] (IsBulletToken.bullet '-' (by decide))).2 [' ']
     (by decide) (by decide)⟩

/-- Counterexample to claim C2: on the unordered list line `- item` the
source computes `Number(match[3])` with `match[3]` undefined, so the result
is NaN, not 0. -/
theorem olLineNumber_unordered_counterexample :
    olLineNumber (("- item").toList) ≠ JsNum.num 0 := by
  decide

/-- Claim C2 (amended): `olLineNumber` returns the parsed decimal ordinal on
an ordered-list line, NaN on a list line that is not ordered (such as
`- item`, whose capture group 3 is undefined and `Number(undefined)` is
NaN), and 0 on a line that is not a list item. -/
theorem olLineNumber_amended (line : Str) :
    (isListItem line = false → olLineNumber line = JsNum.num 0) ∧
    (∀ ws ds p w rest,
      line = ws ++ ds ++ p :: w :: rest →
      (∀ c ∈ ws, jsWs c = true) → ds ≠ [] → (∀ c ∈ ds, isDigit c = true) →
      (p = '.' ∨ p = ')') → jsWs w = true →
      olLineNumber line = JsNum.num (parseDigits ds)) ∧
    (∀ ws b w rest,
      line = ws ++ b :: w :: rest →
      (∀ c ∈ ws, jsWs c = true) → (b = '*' ∨ b = '+' ∨ b = '-') → jsWs w = true →
      olLineNumber line = JsNum.nan) := by
  refine ⟨?_, ?_, ?_⟩
  · intro h
    cases hm : matchListRegex line with
    | none => simp [olLineNumber, hm]
    | some m => rw [isListItem, hm] at h; simp at h
  · rintro ws ds p w rest rfl hws hdne hds hp hw
    obtain ⟨d0, ds'', rfl⟩ : ∃ d0 ds'', ds = d0 :: ds'' := by
      cases ds with
      | nil => exact absurd rfl hdne
      | cons d0 ds'' => exact ⟨d0, ds'', rfl⟩
    have hd0 := hds d0 (by simp)
    have hd0B : isBullet d0 = false := isDigit_not_bullet hd0
    have hpD : isDigit p = false := by rcases hp with rfl | rfl <;> decide
    have hpP : (p == '.' || p == ')') = true := by rcases hp with rfl | rfl <;> decide
    have hjs := takeWhile_all_append jsWs ws ((d0 :: ds'') ++ p :: w :: rest) hws
      (fun c hc => by
        simp only [List.cons_append, List.head?_cons, Option.some.injEq] at hc
        exact hc ▸ isDigit_not_jsWs hd0)
    have hdig := takeWhile_all_append isDigit (d0 :: ds'') (p :: w :: rest) hds
      (fun c hc => by
        simp only [List.head?_cons, Option.some.injEq] at hc
        exact hc ▸ hpD)
    simp only [List.cons_append, List.nil_append, List.append_assoc] at hjs hdig ⊢
    simp [olLineNumber, matchListRegex, listAlt1, listAlt2, listAlt3, expectCharC,
      Option.bind, hjs.2, hdig.1, hdig.2, hd0B, hpP, hp, hw, jsNumberOfGroup]
  · rintro ws b w rest rfl hws hb hw
    have hbW : jsWs b = false := by rcases hb with rfl | rfl | rfl <;> decide
    have hbB : isBullet b = true := by rcases hb with rfl | rfl | rfl <;> decide
    have hjs := takeWhile_all_append jsWs ws (b :: w :: rest) hws
      (fun c hc => by
        simp only [List.head?_cons, Option.some.injEq] at hc
        exact hc ▸ hbW)
    cases hA1 : listAlt1 (b :: w :: rest) with
    | some tr =>
      simp [olLineNumber, matchListRegex, hjs.2, hA1, jsNumberOfGroup]
    | none =>
      simp [olLineNumber, matchListRegex, listAlt2, expectCharC, Option.bind,
        hjs.2, hA1, hbB, hw, jsNumberOfGroup]

/-- Witness for the amended claim C2 on three concrete lines: a non-list
line, an ordered line, and an unordered line. -/
theorem olLineNumber_amended_witness :
    olLineNumber (("item").toList) = JsNum.num 0 ∧
    olLineNumber (("3. x").toList) = JsNum.num 3 ∧
    olLineNumber (("- item").toList) = JsNum.nan :=
  ⟨(olLineNumber_amended (("item").toList)).1 (by decide),
   (olLineNumber_amended (("3. x").toList)).2.1 [] ['3'] '.' ' ' (("x").toList)
     (by decide) (by decide) (by decide) (by decide) (by decide) (by decide),
   (olLineNumber_amended (("- item").toList)).2.2 [] '-' ' ' (("item").toList)
     (by decide) (by decide) (by decide) (by decide)⟩

/-- Claim C3: for every nonempty body, `titleFromBody` equals the pipeline
trim the body, take the first line, trim it, strip the leading run of
marker characters, collapse labelled (image) links to their label, collapse
empty-label links to their URL, truncate to 80 characters; the result never
exceeds 80 characters, and the documented example yields `Hello world`. -/
theorem titleFromBody_spec (body : Str) (h : body ≠ []) :
    (let title := jsTrim ((jsTrim body).takeWhile (fun c => !(c == '\n')));
     let stripped := title.dropWhile filterChar;
     let linked := replaceScan mdLinkAt stripped.length stripped;
     let unlinked := replaceScan emptyMdLinkAt linked.length linked;
     titleFromBody body = unlinked.take 80) ∧
    (titleFromBody body).length ≤ 80 ∧
    titleFromBody (("# Hello [world](http://x)\nmore text").toList)
      = ("Hello world").toList := by
  refine ⟨?_, ?_, by decide⟩
  · simp only [titleFromBody, List.isEmpty_iff]
    rw [if_neg h]
  · simp only [titleFromBody, List.isEmpty_iff]
    rw [if_neg h]
    simp only [List.length_take]
    omega

/-- Witness for claim C3 at a one-character body. -/
theorem titleFromBody_spec_witness :
    (("x").toList ≠ []) ∧ (titleFromBody (("x").toList)).length ≤ 80 :=
  ⟨by decide, (titleFromBody_spec (("x").toList) (by decide)).2.1⟩

theorem cmap_append (f : Char → Str) (xs ys : Str) :
    cmap f (xs ++ ys) = cmap f xs ++ cmap f ys := by
  induction xs with
  | nil => simp [cmap]
  | cons x xs' ih => simp [cmap, ih]

theorem cmap_cmap (f g : Char → Str) (s : Str) :
    cmap g (cmap f s) = cmap (fun c => cmap g (f c)) s := by
  induction s with
  | nil => rfl
  | cons c cs ih => simp only [cmap, cmap_append, ih]

theorem cmap_congr (f g : Char → Str) (h : ∀ c, f c = g c) (s : Str) :
    cmap f s = cmap g s := by
  induction s with
  | nil => rfl
  | cons c cs ih => simp only [cmap, h c, ih]

theorem cmap_id (s : Str) : cmap (fun c => [c]) s = s := by
  induction s with
  | nil => rfl
  | cons c cs ih => simp only [cmap, ih, List.singleton_append]

theorem replaceAll_single (a : Char) (repl : Str) (s : Str) :
    replaceAll [a] repl s = cmap (fun c => if c = a then repl else [c]) s := by
  induction s with
  | nil => rfl
  | cons c cs ih =>
    by_cases hca : a = c
    · subst hca
      rw [replaceAll_cons_pos [a] repl a cs (by simp) ⟨cs, rfl⟩]
      simp [cmap, ih]
    · rw [replaceAll_cons_neg [a] repl c cs
        (fun hh => hca (List.cons_prefix_cons.mp hh.2).1)]
      have hcaI : ¬ c = a := fun hh => hca hh.symm
      simp [cmap, hcaI, ih]

theorem escapeLinkUrl_eq_cmap (s : Str) :
    escapeLinkUrl s = cmap (encWith mPar) s := by
  unfold escapeLinkUrl
  simp only [replaceAll_single, cmap_cmap]
  apply cmap_congr
  intro c
  by_cases h1 : c = '('
  · subst h1; decide
  · by_cases h2 : c = ')'
    · subst h2; decide
    · by_cases h3 : c = ' '
      · subst h3; decide
      · simp [encWith, mPar, cmap, h1, h2, h3]

theorem unescape_pass (m : Char → Option Char) (r d : Char)
    (hmr : m r = some d)
    (hpct : ∀ c e, m c = some e → e ≠ '%')
    (huniq : ∀ c e, m c = some e → e = d → c = r) :
    ∀ s : Str, ¬ (['%', '2', d] <:+: s) →
      replaceAll ['%', '2', d] [r] (cmap (encWith m) s)
        = cmap (encWith (fun c => if c = r then none else m c)) s := by
  have hd : d ≠ '%' := hpct r d hmr
  intro s
  induction s with
  | nil => intro _; rfl
  | cons c cs ih =>
    intro hs
    have hs' : ¬ (['%', '2', d] <:+: cs) := fun hinf => hs (List.infix_cons hinf)
    cases hm : m c with
    | some e =>
      by_cases hcr : c = r
      · subst hcr
        rw [hmr] at hm
        injection hm with hed
        subst hed
        have hcmap : cmap (encWith m) (c :: cs) = '%' :: '2' :: d :: cmap (encWith m) cs := by
          simp [cmap, encWith, hmr]
        rw [hcmap,
          replaceAll_cons_pos ['%', '2', d] [c] '%' ('2' :: d :: cmap (encWith m) cs)
            (by simp) ⟨cmap (encWith m) cs, rfl⟩]
        simp only [List.length_cons, List.length_nil, List.drop_succ_cons, List.drop_zero]
        rw [ih hs']
        simp [cmap, encWith]
      · have he : e ≠ d := fun hh => hcr (huniq c e hm hh)
        have hep : e ≠ '%' := hpct c e hm
        have hcmap : cmap (encWith m) (c :: cs) = '%' :: '2' :: e :: cmap (encWith m) cs := by
          simp [cmap, encWith, hm]
        rw [hcmap]
        rw [replaceAll_cons_neg _ _ _ _ (fun hh => by
          have h1 := List.cons_prefix_cons.mp hh.2
          have h2 := List.cons_prefix_cons.mp h1.2
          have h3 := List.cons_prefix_cons.mp h2.2
          exact he h3.1.symm)]
        rw [replaceAll_cons_neg _ _ _ _ (fun hh => by
          have h1 := List.cons_prefix_cons.mp hh.2
          exact absurd h1.1 (by decide))]
        rw [replaceAll_cons_neg _ _ _ _ (fun hh => by
          have h1 := List.cons_prefix_cons.mp hh.2
          exact hep h1.1.symm)]
        rw [ih hs']
        simp [cmap, encWith, hm, hcr]
    | none =>
      have hcr : c ≠ r := by
        intro hh
        rw [hh, hmr] at hm
        exact Option.noConfusion hm
      have hcmap : cmap (encWith m) (c :: cs) = c :: cmap (encWith m) cs := by
        simp [cmap, encWith, hm]
      rw [hcmap]
      by_cases hpre : (['%', '2', d] : Str) <+: (c :: cmap (encWith m) cs)
      · exfalso
        obtain ⟨t, ht⟩ := hpre
        simp only [List.cons_append, List.nil_append] at ht
        injection ht with hc1 ht1
        cases cs with
        | nil => simp [cmap] at ht1
        | cons c1 cs1 =>
          rw [show cmap (encWith m) (c1 :: cs1) = encWith m c1 ++ cmap (encWith m) cs1
            from rfl] at ht1
          cases hm1 : m c1 with
          | some e1 =>
            rw [show encWith m c1 = ['%', '2', e1] from by simp [encWith, hm1]] at ht1
            simp only [List.cons_append] at ht1
            injection ht1 with hbad
            exact absurd hbad (by decide)
          | none =>
            rw [show encWith m c1 = [c1] from by simp [encWith, hm1]] at ht1
            simp only [List.singleton_append] at ht1
            injection ht1 with hc2 ht2
            cases cs1 with
            | nil => simp [cmap] at ht2
            | cons c2 cs2 =>
              rw [show cmap (encWith m) (c2 :: cs2) = encWith m c2 ++ cmap (encWith m) cs2
                from rfl] at ht2
              cases hm2 : m c2 with
              | some e2 =>
                rw [show encWith m c2 = ['%', '2', e2] from by simp [encWith, hm2]] at ht2
                simp only [List.cons_append] at ht2
                injection ht2 with hbad
                exact hd hbad
              | none =>
                rw [show encWith m c2 = [c2] from by simp [encWith, hm2]] at ht2
                simp only [List.singleton_append] at ht2
                injection ht2 with hc3 ht3
                exact hs ⟨[], cs2, by rw [← hc1, ← hc2, ← hc3]; rfl⟩
      · rw [replaceAll_cons_neg _ _ _ _ (fun hh => hpre hh.2)]
        rw [ih hs']
        simp [cmap, encWith, hm, hcr]

theorem mPar_not_pct : ∀ c e, mPar c = some e → e ≠ '%' := by
  intro c e h
  unfold mPar at h
  by_cases h1 : c = '('
  · rw [if_pos h1] at h; injection h with h; subst h; decide
  · rw [if_neg h1] at h
    by_cases h2 : c = ')'
    · rw [if_pos h2] at h; injection h with h; subst h; decide
    · rw [if_neg h2] at h
      by_cases h3 : c = ' '
      · rw [if_pos h3] at h; injection h with h; subst h; decide
      · rw [if_neg h3] at h; exact Option.noConfusion h

theorem mPar_uniq8 : ∀ c e, mPar c = some e → e = '8' → c = '(' := by
  intro c e h he
  unfold mPar at h
  by_cases h1 : c = '('
  · exact h1
  · rw [if_neg h1] at h
    by_cases h2 : c = ')'
    · rw [if_pos h2] at h; injection h with h; exact absurd (h.trans he) (by decide)
    · rw [if_neg h2] at h
      by_cases h3 : c = ' '
      · rw [if_pos h3] at h; injection h with h; exact absurd (h.trans he) (by decide)
      · rw [if_neg h3] at h; exact Option.noConfusion h

theorem mPar2_not_pct : ∀ c e, mPar2 c = some e → e ≠ '%' := by
  intro c e h
  unfold mPar2 at h
  by_cases h1 : c = '('
  · rw [if_pos h1] at h; exact Option.noConfusion h
  · rw [if_neg h1] at h; exact mPar_not_pct c e h

theorem mPar2_uniq9 : ∀ c e, mPar2 c = some e → e = '9' → c = ')' := by
  intro c e h he
  unfold mPar2 at h
  by_cases h1 : c = '('
  · rw [if_pos h1] at h; exact Option.noConfusion h
  · rw [if_neg h1] at h
    by_cases h2 : c = ')'
    · exact h2
    · unfold mPar at h
      rw [if_neg h1, if_neg h2] at h
      by_cases h3 : c = ' '
      · rw [if_pos h3] at h; injection h with h; exact absurd (h.trans he) (by decide)
      · rw [if_neg h3] at h; exact Option.noConfusion h

theorem mPar3_not_pct : ∀ c e, mPar3 c = some e → e ≠ '%' := by
  intro c e h
  unfold mPar3 at h
  by_cases h1 : c = ')'
  · rw [if_pos h1] at h; exact Option.noConfusion h
  · rw [if_neg h1] at h; exact mPar2_not_pct c e h

theorem mPar3_uniq0 : ∀ c e, mPar3 c = some e → e = '0' → c = ' ' := by
  intro c e h he
  unfold mPar3 mPar2 at h
  by_cases h1 : c = ')'
  · rw [if_pos h1] at h; exact Option.noConfusion h
  · rw [if_neg h1] at h
    by_cases h2 : c = '('
    · rw [if_pos h2] at h; exact Option.noConfusion h
    · rw [if_neg h2] at h
      unfold mPar at h
      rw [if_neg h2, if_neg h1] at h
      by_cases h3 : c = ' '
      · exact h3
      · rw [if_neg h3] at h; exact Option.noConfusion h

/-- Claim C1: for every url that does not already contain any of the
literal sequences `%28`, `%29`, `%20`, `unescapeLinkUrl` undoes
`escapeLinkUrl` exactly. -/
theorem escapeLinkUrl_roundTrip (url : Str)
    (h28 : ¬ (['%', '2', '8'] <:+: url))
    (h29 : ¬ (['%', '2', '9'] <:+: url))
    (h20 : ¬ (['%', '2', '0'] <:+: url)) :
    unescapeLinkUrl (escapeLinkUrl url) = url := by
  rw [escapeLinkUrl_eq_cmap]
  unfold unescapeLinkUrl
  rw [unescape_pass mPar '(' '8' (by decide) mPar_not_pct mPar_uniq8 url h28]
  rw [show (fun c => if c = '(' then none else mPar c) = mPar2 from rfl]
  rw [unescape_pass mPar2 ')' '9' (by decide) mPar2_not_pct mPar2_uniq9 url h29]
  rw [show (fun c => if c = ')' then none else mPar2 c) = mPar3 from rfl]
  rw [unescape_pass mPar3 ' ' '0' (by decide) mPar3_not_pct mPar3_uniq0 url h20]
  refine (cmap_congr _ (fun c => [c]) ?_ url).trans (cmap_id url)
  intro c
  simp only [encWith, mPar3, mPar2, mPar]
  split_ifs <;> rfl

/-- Witness for claim C1 at a concrete url containing spaces and
parentheses. -/
theorem escapeLinkUrl_roundTrip_witness :
    (¬ (['%', '2', '8'] <:+: ("http://a b(c)").toList)) ∧
    (¬ (['%', '2', '9'] <:+: ("http://a b(c)").toList)) ∧
    (¬ (['%', '2', '0'] <:+: ("http://a b(c)").toList)) ∧
    unescapeLinkUrl (escapeLinkUrl (("http://a b(c)").toList))
      = ("http://a b(c)").toList :=
  ⟨by decide, by decide, by decide,
   escapeLinkUrl_roundTrip (("http://a b(c)").toList)
     (by decide) (by decide) (by decide)⟩
